import Mathlib

set_option maxHeartbeats 1000000

/-!
Verification development for the Letta browser-extension injection engine.

The definitions below are shallow embeddings of the extension's source:
strings are modelled as `List Char`, the DOM reads/writes of the injection
module become explicit state passing, and `Date.now()` becomes a `Nat`
parameter.  Each definition's doc comment names the source function it
embeds.
-/

/-- The newline character used by the marker protocol (`"\n"` in the source). -/
def nlChar : Char := '\n'

/-- Whitespace recognised by JavaScript's `String.prototype.trim`
(the common subset actually reachable here). -/
def isJsWhitespace (c : Char) : Bool :=
  c == ' ' || c == '\t' || c == '\n' || c == '\r' || c == '\x0b' || c == '\x0c'

/-- Embeds JavaScript `s.trim()`. -/
def trimChars (s : List Char) : List Char :=
  ((s.dropWhile isJsWhitespace).reverse.dropWhile isJsWhitespace).reverse

/-- `isPre pat s` decides whether `pat` occurs at the very start of `s`. -/
def isPre : List Char → List Char → Bool
  | [], _ => true
  | _ :: _, [] => false
  | a :: as, b :: bs => a == b && isPre as bs

/-- Embeds JavaScript `s.indexOf(pat)`: index of the first occurrence of
`pat` in `s`, `none` when absent (`-1` in the source). -/
def subIndex (pat : List Char) : List Char → Option Nat
  | [] => if pat.isEmpty then some 0 else none
  | c :: rest => if isPre pat (c :: rest) then some 0 else (subIndex pat rest).map (· + 1)

/-- Embeds JavaScript `content.includes(pat)`. -/
def includesStr (content pat : List Char) : Bool := (subIndex pat content).isSome

/-- `pat` occurs somewhere in `s` (at an unspecified position). -/
def HasOcc (pat s : List Char) : Prop := ∃ i, isPre pat (s.drop i) = true

theorem isPre_append_self (pat rest : List Char) : isPre pat (pat ++ rest) = true := by
  induction pat with
  | nil => rfl
  | cons a as ih => simp [isPre, ih]

theorem isPre_nil_right (pat : List Char) (h : isPre pat [] = true) : pat = [] := by
  cases pat with
  | nil => rfl
  | cons a as => simp [isPre] at h

theorem hasOcc_nil (pat : List Char) (h : HasOcc pat []) : pat = [] := by
  obtain ⟨i, hi⟩ := h
  simp only [List.drop_nil] at hi
  exact isPre_nil_right pat hi

theorem hasOcc_cons (pat : List Char) (c : Char) (s : List Char) :
    HasOcc pat (c :: s) ↔ isPre pat (c :: s) = true ∨ HasOcc pat s := by
  constructor
  · rintro ⟨i, hi⟩
    cases i with
    | zero => exact Or.inl hi
    | succ j => exact Or.inr ⟨j, by simpa using hi⟩
  · rintro (h | ⟨j, hj⟩)
    · exact ⟨0, h⟩
    · exact ⟨j + 1, by simpa using hj⟩

theorem subIndex_some_occ (pat s : List Char) (i : Nat)
    (h : subIndex pat s = some i) : isPre pat (s.drop i) = true := by
  induction s generalizing i with
  | nil =>
    cases pat with
    | nil =>
      simp only [subIndex, List.isEmpty_nil, if_true, Option.some.injEq] at h
      subst h
      rfl
    | cons p ps =>
      simp [subIndex] at h
  | cons c rest ih =>
    simp only [subIndex] at h
    split at h
    next hpre =>
      cases h
      simpa using hpre
    next hpre =>
      cases hrec : subIndex pat rest with
      | none => rw [hrec] at h; cases h
      | some j =>
        rw [hrec] at h
        cases h
        simpa using ih j hrec

theorem subIndex_none_not_occ (pat s : List Char)
    (h : subIndex pat s = none) : ¬ HasOcc pat s := by
  induction s with
  | nil =>
    intro hocc
    have hp := hasOcc_nil pat hocc
    subst hp
    simp [subIndex] at h
  | cons c rest ih =>
    intro hocc
    rcases (hasOcc_cons pat c rest).mp hocc with h0 | hrest
    · simp [subIndex, h0] at h
    · simp only [subIndex] at h
      split at h
      · cases h
      · cases hrec : subIndex pat rest with
        | none => exact ih hrec hrest
        | some j => rw [hrec] at h; cases h

theorem subIndex_none_of_not_occ (pat s : List Char)
    (h : ¬ HasOcc pat s) : subIndex pat s = none := by
  cases hrec : subIndex pat s with
  | none => rfl
  | some i =>
    exact absurd ⟨i, subIndex_some_occ pat s i hrec⟩ h

theorem subIndex_isSome_of_occ (pat s : List Char)
    (h : HasOcc pat s) : (subIndex pat s).isSome = true := by
  cases hrec : subIndex pat s with
  | none => exact absurd h (subIndex_none_not_occ pat s hrec)
  | some i => rfl

/-- A pattern avoiding the separator character cannot start before the
separator and reach past it. -/
theorem isPre_of_isPre_append_cons (pat X Y : List Char) (c : Char)
    (hc : c ∉ pat) (h : isPre pat (X ++ c :: Y) = true) : isPre pat X = true := by
  induction pat generalizing X with
  | nil => rfl
  | cons p ps ih =>
    cases X with
    | nil =>
      simp only [List.nil_append, isPre, Bool.and_eq_true, beq_iff_eq] at h
      exact absurd (h.1 ▸ List.mem_cons_self p ps) hc
    | cons x xs =>
      simp only [List.cons_append, isPre, Bool.and_eq_true] at h ⊢
      refine ⟨h.1, ih xs (fun hm => hc (List.mem_cons_of_mem p hm)) h.2⟩

/-- Occurrences split at a separator character the pattern does not contain. -/
theorem hasOcc_append_cons (pat A B : List Char) (c : Char)
    (hc : c ∉ pat) (h : HasOcc pat (A ++ c :: B)) : HasOcc pat A ∨ HasOcc pat B := by
  induction A with
  | nil =>
    simp only [List.nil_append] at h
    rcases (hasOcc_cons pat c B).mp h with h0 | hrest
    · cases pat with
      | nil => exact Or.inl ⟨0, rfl⟩
      | cons p ps =>
        simp only [isPre, Bool.and_eq_true, beq_iff_eq] at h0
        exact absurd (h0.1 ▸ List.mem_cons_self p ps) hc
    · exact Or.inr hrest
  | cons a A' ih =>
    rw [List.cons_append] at h
    rcases (hasOcc_cons pat a (A' ++ c :: B)).mp h with h0 | hrest
    · have : isPre pat (a :: A') = true := by
        have := isPre_of_isPre_append_cons pat (a :: A') B c hc (by simpa using h0)
        exact this
      exact Or.inl ⟨0, this⟩
    · rcases ih hrest with hA | hB
      · rcases hA with ⟨j, hj⟩
        exact Or.inl ⟨j + 1, by simpa using hj⟩
      · exact Or.inr hB

theorem subIndex_append_of_no_early (pat A B : List Char)
    (h : ∀ j, j < A.length → isPre pat ((A ++ B).drop j) = false) :
    subIndex pat (A ++ B) = (subIndex pat B).map (· + A.length) := by
  induction A with
  | nil =>
    cases hb : subIndex pat B with
    | none => simp [hb]
    | some v => simp [hb]
  | cons a A' ih =>
    rw [List.cons_append]
    have hnotpre : isPre pat (a :: (A' ++ B)) = false := by
      have := h 0 (by simp)
      simpa using this
    have hrest : ∀ j, j < A'.length → isPre pat ((A' ++ B).drop j) = false := by
      intro j hj
      have := h (j + 1) (by simpa using Nat.succ_lt_succ hj)
      simpa using this
    cases pat with
    | nil => simp [isPre] at hnotpre
    | cons p ps =>
      simp only [subIndex, hnotpre, Bool.false_eq_true, if_false]
      rw [ih hrest]
      cases subIndex (p :: ps) B with
      | none => rfl
      | some v =>
        show some (v + A'.length + 1) = some (v + (A'.length + 1))
        rw [Nat.add_assoc]

/-- Computing first occurrences across a separator: if the pattern does not
occur in the part before the separator and does not contain the separator,
the first occurrence is found after it, shifted accordingly. -/
theorem subIndex_append_cons (pat A B : List Char) (c : Char)
    (hc : c ∉ pat) (hA : ¬ HasOcc pat A) :
    subIndex pat (A ++ c :: B) = (subIndex pat B).map (· + (A.length + 1)) := by
  have key : ∀ j, j < (A ++ [c]).length → isPre pat (((A ++ [c]) ++ B).drop j) = false := by
    intro j hj
    simp only [List.length_append, List.length_cons, List.length_nil] at hj
    by_contra hcontra
    have hpre : isPre pat (((A ++ [c]) ++ B).drop j) = true := by
      cases hb : isPre pat (((A ++ [c]) ++ B).drop j)
      · exact absurd hb hcontra
      · rfl
    rw [List.append_assoc] at hpre
    have hj' : j ≤ A.length := by omega
    rw [List.drop_append_of_le_length hj'] at hpre
    have hpreA : isPre pat (A.drop j) = true := by
      have := isPre_of_isPre_append_cons pat (A.drop j) B c hc (by simpa using hpre)
      exact this
    exact hA ⟨j, hpreA⟩
  have := subIndex_append_of_no_early pat (A ++ [c]) B (by simpa using key)
  rw [List.append_assoc] at this
  simp only [List.singleton_append] at this
  rw [this]
  simp [List.length_append]

theorem subIndex_self (pat rest : List Char) (h : pat ≠ []) :
    subIndex pat (pat ++ rest) = some 0 := by
  cases pat with
  | nil => exact absurd rfl h
  | cons p ps =>
    have hpre := isPre_append_self (p :: ps) rest
    rw [List.cons_append] at hpre ⊢
    simp [subIndex, hpre]

theorem trimChars_cons_ws (c : Char) (s : List Char) (h : isJsWhitespace c = true) :
    trimChars (c :: s) = trimChars s := by
  simp [trimChars, List.dropWhile, h]

/-- Marker literal `MEMORY_HEADER` from `src/constants.ts`. -/
def MEMORY_HEADER : List Char := "=== RELEVANT MEMORIES FROM LETTA ===".data

/-- Marker literal `MEMORY_FOOTER` from `src/constants.ts`. -/
def MEMORY_FOOTER : List Char := "=== END MEMORIES ===".data

/-- A memory block as used by the injection module (`MemoryBlock` in
`src/types.ts`); only the fields the module reads are modelled. -/
structure MemoryBlock where
  id : Option (List Char)
  label : List Char
  value : List Char
deriving DecidableEq

/-- Embeds `memory.label || "Memory"` (JS falsy fallback on the empty string). -/
def labelOf (b : MemoryBlock) : List Char :=
  if b.label.isEmpty then "Memory".data else b.label

/-- The lines contributed by one block inside `formatMemoriesForInjection`:
`[label]`, the value, then a blank line — or nothing if the value is blank. -/
def sectionLines (b : MemoryBlock) : List (List Char) :=
  if (trimChars b.value).isEmpty then []
  else [('[' :: labelOf b) ++ [']'], b.value, []]

/-- Embeds JavaScript `lines.join("\n")`. -/
def joinNl : List (List Char) → List Char
  | [] => []
  | [x] => x
  | x :: y :: rest => x ++ nlChar :: joinNl (y :: rest)

/-- Embeds `formatMemoriesForInjection` from `src/utils/memory-injection.ts`:
header, blank line, one labeled section per non-blank block, footer, and a
final empty line, joined with newlines. -/
def formatMemoriesForInjection (memories : List MemoryBlock) : List Char :=
  if memories.isEmpty then []
  else joinNl ([MEMORY_HEADER, []] ++ memories.flatMap sectionLines ++ [MEMORY_FOOTER, []])

/-- The flattened section text between the blank line after the header and
the footer (used only to reason about `formatMemoriesForInjection`). -/
def sectionsStr : List MemoryBlock → List Char
  | [] => []
  | b :: bs =>
    if (trimChars b.value).isEmpty then sectionsStr bs
    else (('[' :: labelOf b) ++ [']']) ++ nlChar :: b.value ++ nlChar :: nlChar :: sectionsStr bs

/-- Embeds `getContentWithoutMemories` from `src/utils/dom-handlers.ts`, with
the editor content passed explicitly (the source reads it from the located
editor element).  Totality of the definition reflects that the source never
throws on any content. -/
def getContentWithoutMemories (memoryHeaderText content : List Char) : List Char :=
  if memoryHeaderText = MEMORY_HEADER then
    match subIndex MEMORY_HEADER content with
    | none => trimChars content
    | some startIdx =>
      match subIndex MEMORY_FOOTER content with
      | some endIdx =>
        if startIdx < endIdx then
          trimChars (content.take startIdx ++ content.drop (endIdx + MEMORY_FOOTER.length))
        else trimChars (content.take startIdx)
      | none => trimChars (content.take startIdx)
  else
    match subIndex memoryHeaderText content with
    | none => trimChars content
    | some customIndex => trimChars (content.take customIndex)

theorem joinNl_cons_cons (x : List Char) (y : List Char) (rest : List (List Char)) :
    joinNl (x :: y :: rest) = x ++ nlChar :: joinNl (y :: rest) := rfl

theorem joinNl_sections (bs : List MemoryBlock) :
    joinNl (bs.flatMap sectionLines ++ [MEMORY_FOOTER, []]) =
      sectionsStr bs ++ MEMORY_FOOTER ++ [nlChar] := by
  induction bs with
  | nil => rfl
  | cons b bs ih =>
    by_cases hb : (trimChars b.value).isEmpty
    · have hsec : sectionLines b = [] := by simp [sectionLines, hb]
      have hsecs : sectionsStr (b :: bs) = sectionsStr bs := by simp [sectionsStr, hb]
      rw [List.flatMap_cons, hsec, hsecs, List.nil_append]
      exact ih
    · have hsec : sectionLines b = [('[' :: labelOf b) ++ [']'], b.value, []] := by
        simp [sectionLines, hb]
      have hsecs : sectionsStr (b :: bs) =
          (('[' :: labelOf b) ++ [']']) ++ nlChar :: b.value ++ nlChar :: nlChar :: sectionsStr bs := by
        simp [sectionsStr, hb]
      rw [List.flatMap_cons, hsec, hsecs, List.append_assoc]
      have hne : bs.flatMap sectionLines ++ [MEMORY_FOOTER, []] ≠ [] := by
        intro hcontra
        have := congrArg List.length hcontra
        simp [List.length_append] at this
      cases hrest : bs.flatMap sectionLines ++ [MEMORY_FOOTER, []] with
      | nil => exact absurd hrest hne
      | cons z zs =>
        have hj : joinNl (z :: zs) = sectionsStr bs ++ MEMORY_FOOTER ++ [nlChar] := by
          rw [← hrest]
          exact ih
        show joinNl ((('[' :: labelOf b) ++ [']']) :: b.value :: [] :: z :: zs) = _
        rw [joinNl_cons_cons, joinNl_cons_cons, joinNl_cons_cons, hj]
        simp [List.append_assoc]

theorem formatMemories_eq (memories : List MemoryBlock) (hne : memories ≠ []) :
    formatMemoriesForInjection memories =
      MEMORY_HEADER ++ nlChar :: nlChar :: (sectionsStr memories ++ MEMORY_FOOTER ++ [nlChar]) := by
  have hempty : memories.isEmpty = false := by
    cases memories with
    | nil => exact absurd rfl hne
    | cons m ms => rfl
  simp only [formatMemoriesForInjection, hempty, Bool.false_eq_true, if_false]
  have hnonnil : memories.flatMap sectionLines ++ [MEMORY_FOOTER, []] ≠ [] := by
    intro hcontra
    have := congrArg List.length hcontra
    simp [List.length_append] at this
  have hstep : [MEMORY_HEADER, ([] : List Char)] ++ memories.flatMap sectionLines ++ [MEMORY_FOOTER, []]
      = MEMORY_HEADER :: ([] : List Char) :: (memories.flatMap sectionLines ++ [MEMORY_FOOTER, []]) := by
    simp
  rw [hstep]
  cases hrest : memories.flatMap sectionLines ++ [MEMORY_FOOTER, []] with
  | nil => exact absurd hrest hnonnil
  | cons z zs =>
    have hj : joinNl (z :: zs) = sectionsStr memories ++ MEMORY_FOOTER ++ [nlChar] := by
      rw [← hrest]
      exact joinNl_sections memories
    rw [joinNl_cons_cons, joinNl_cons_cons, hj]
    simp

/-- Inside the formatted section text, the first footer occurrence is exactly
the real footer appended after it, provided no label or value contains the
footer literal. -/
theorem subIndex_footer_sections (bs : List MemoryBlock) (T : List Char)
    (hB : ∀ b ∈ bs, ¬ HasOcc MEMORY_FOOTER (labelOf b) ∧ ¬ HasOcc MEMORY_FOOTER b.value) :
    subIndex MEMORY_FOOTER (sectionsStr bs ++ (MEMORY_FOOTER ++ nlChar :: T)) =
      some (sectionsStr bs).length := by
  induction bs with
  | nil =>
    simp only [sectionsStr, List.nil_append, List.length_nil]
    exact subIndex_self MEMORY_FOOTER (nlChar :: T) (by decide)
  | cons b bs ih =>
    have hbtail : ∀ x ∈ bs, ¬ HasOcc MEMORY_FOOTER (labelOf x) ∧ ¬ HasOcc MEMORY_FOOTER x.value :=
      fun x hx => hB x (List.mem_cons_of_mem b hx)
    by_cases hb : (trimChars b.value).isEmpty
    · have hsecs : sectionsStr (b :: bs) = sectionsStr bs := by simp [sectionsStr, hb]
      rw [hsecs]
      exact ih hbtail
    · have hlab : ¬ HasOcc MEMORY_FOOTER (labelOf b) := (hB b (List.mem_cons_self b bs)).1
      have hval : ¬ HasOcc MEMORY_FOOTER b.value := (hB b (List.mem_cons_self b bs)).2
      have hnl : nlChar ∉ MEMORY_FOOTER := by decide
      have hlab' : ¬ HasOcc MEMORY_FOOTER (('[' :: labelOf b) ++ [']']) := by
        intro hocc
        rcases hasOcc_append_cons MEMORY_FOOTER ('[' :: labelOf b) [] ']' (by decide) hocc with h1 | h2
        · rcases hasOcc_append_cons MEMORY_FOOTER [] (labelOf b) '[' (by decide)
            (by simpa using h1) with h3 | h4
          · exact absurd (hasOcc_nil _ h3) (by decide)
          · exact hlab h4
        · exact absurd (hasOcc_nil _ h2) (by decide)
      have hsecs : sectionsStr (b :: bs) =
          (('[' :: labelOf b) ++ [']']) ++ nlChar :: b.value ++ nlChar :: nlChar :: sectionsStr bs := by
        simp [sectionsStr, hb]
      rw [hsecs]
      have happ1 := subIndex_append_cons MEMORY_FOOTER (('[' :: labelOf b) ++ [']'])
        (b.value ++ nlChar :: nlChar :: (sectionsStr bs ++ (MEMORY_FOOTER ++ nlChar :: T)))
        nlChar hnl hlab'
      have happ2 := subIndex_append_cons MEMORY_FOOTER b.value
        (nlChar :: (sectionsStr bs ++ (MEMORY_FOOTER ++ nlChar :: T))) nlChar hnl hval
      have happ3 := subIndex_append_cons MEMORY_FOOTER []
        (sectionsStr bs ++ (MEMORY_FOOTER ++ nlChar :: T)) nlChar hnl
        (fun h => absurd (hasOcc_nil _ h) (by decide))
      rw [ih hbtail] at happ3
      simp only [List.nil_append, List.length_nil, Nat.zero_add] at happ3
      rw [happ3] at happ2
      rw [happ2] at happ1
      simp only [List.append_assoc, List.cons_append, List.nil_append] at happ1 ⊢
      rw [happ1]
      simp [List.length_append, List.length_cons]
      omega

theorem getContentWM_eval_some_some (content : List Char) (s e : Nat)
    (hs : subIndex MEMORY_HEADER content = some s)
    (he : subIndex MEMORY_FOOTER content = some e) :
    getContentWithoutMemories MEMORY_HEADER content =
      if s < e then trimChars (content.take s ++ content.drop (e + MEMORY_FOOTER.length))
      else trimChars (content.take s) := by
  rw [getContentWithoutMemories, if_pos rfl, hs, he]

theorem getContentWM_eval_some_none (content : List Char) (s : Nat)
    (hs : subIndex MEMORY_HEADER content = some s)
    (he : subIndex MEMORY_FOOTER content = none) :
    getContentWithoutMemories MEMORY_HEADER content = trimChars (content.take s) := by
  rw [getContentWithoutMemories, if_pos rfl, hs, he]

theorem getContentWM_eval_none (content : List Char)
    (hs : subIndex MEMORY_HEADER content = none) :
    getContentWithoutMemories MEMORY_HEADER content = trimChars content := by
  rw [getContentWithoutMemories, if_pos rfl, hs]

/-- Claim C1: for every list of memory blocks whose labels and values do not
contain the marker literals, and every user text T not containing the header
or footer literals, stripping markers (`getContentWithoutMemories` with the
standard header) from `formatMemoriesForInjection B ++ T` returns exactly
`T.trim()`. -/
theorem stripOut_spliceIn_roundtrip (B : List MemoryBlock) (T : List Char)
    (hB : ∀ b ∈ B, ¬ HasOcc MEMORY_HEADER b.label ∧ ¬ HasOcc MEMORY_FOOTER b.label ∧
                   ¬ HasOcc MEMORY_HEADER b.value ∧ ¬ HasOcc MEMORY_FOOTER b.value)
    (hT1 : ¬ HasOcc MEMORY_HEADER T) (hT2 : ¬ HasOcc MEMORY_FOOTER T) :
    getContentWithoutMemories MEMORY_HEADER (formatMemoriesForInjection B ++ T) =
      trimChars T := by
  by_cases hBnil : B = []
  · subst hBnil
    have hfmt : formatMemoriesForInjection [] = [] := rfl
    rw [hfmt, List.nil_append]
    exact getContentWM_eval_none T (subIndex_none_of_not_occ MEMORY_HEADER T hT1)
  · have hB' : ∀ b ∈ B, ¬ HasOcc MEMORY_FOOTER (labelOf b) ∧ ¬ HasOcc MEMORY_FOOTER b.value := by
      intro b hb
      refine ⟨?_, (hB b hb).2.2.2⟩
      unfold labelOf
      split
      · intro hocc
        have hnone : subIndex MEMORY_FOOTER "Memory".data = none := by decide
        exact subIndex_none_not_occ _ _ hnone hocc
      · exact (hB b hb).2.1
    have hcontent : formatMemoriesForInjection B ++ T =
        MEMORY_HEADER ++ nlChar :: nlChar :: (sectionsStr B ++ (MEMORY_FOOTER ++ nlChar :: T)) := by
      rw [formatMemories_eq B hBnil]
      simp [List.append_assoc]
    rw [hcontent]
    have hstart : subIndex MEMORY_HEADER
        (MEMORY_HEADER ++ nlChar :: nlChar :: (sectionsStr B ++ (MEMORY_FOOTER ++ nlChar :: T)))
          = some 0 :=
      subIndex_self _ _ (by decide)
    have hHnl : ¬ HasOcc MEMORY_FOOTER (MEMORY_HEADER ++ [nlChar]) := by
      intro hocc
      rcases hasOcc_append_cons MEMORY_FOOTER MEMORY_HEADER [] nlChar (by decide) hocc with h1 | h2
      · exact subIndex_none_not_occ _ _ (by decide) h1
      · exact absurd (hasOcc_nil _ h2) (by decide)
    have hend := subIndex_append_cons MEMORY_FOOTER (MEMORY_HEADER ++ [nlChar])
      (sectionsStr B ++ (MEMORY_FOOTER ++ nlChar :: T)) nlChar (by decide) hHnl
    rw [subIndex_footer_sections B T hB'] at hend
    simp only [List.append_assoc, List.cons_append, List.nil_append,
      List.length_append, List.length_cons, List.length_nil, Option.map_some] at hend
    have hpos : 0 < (sectionsStr B).length + (MEMORY_HEADER.length + (0 + 1) + 1) := by omega
    rw [getContentWM_eval_some_some _ 0 _ hstart hend, if_pos hpos]
    simp only [List.take_zero, List.nil_append]
    have hdroplen : (sectionsStr B).length + (MEMORY_HEADER.length + (0 + 1) + 1)
        + MEMORY_FOOTER.length
        = (MEMORY_HEADER ++ nlChar :: nlChar :: (sectionsStr B ++ MEMORY_FOOTER)).length := by
      simp [List.length_append, List.length_cons]
      omega
    have hsplit : MEMORY_HEADER ++ nlChar :: nlChar :: (sectionsStr B ++ (MEMORY_FOOTER ++ nlChar :: T))
        = (MEMORY_HEADER ++ nlChar :: nlChar :: (sectionsStr B ++ MEMORY_FOOTER)) ++ nlChar :: T := by
      simp [List.append_assoc]
    rw [hdroplen, hsplit, List.drop_left]
    exact trimChars_cons_ws nlChar T (by decide)

/-- The mutable state of the memory-injection module
(`src/utils/memory-injection.ts`): the located editor's text content
(read via `getInputValue`, written via `setInputValue`) and the
module-level `injectedMemoryIds` set (as an insertion-ordered list). -/
structure InjectorState where
  content : List Char
  injectedMemoryIds : List (List Char)
deriving DecidableEq

/-- Embeds `injectedMemoryIds.add(id)` guarded by `if (m.id)`. -/
def addIdIfNew (ids : List (List Char)) (i : Option (List Char)) : List (List Char) :=
  match i with
  | none => ids
  | some v => if v ∈ ids then ids else ids ++ [v]

/-- Embeds `injectMemories` from `src/utils/memory-injection.ts` for the case
where the platform and editor have been resolved (the claims under
consideration presuppose a located editor; a missing platform or editor
makes the source return `false` without touching any state). -/
def injectMemoriesOp (memories : List MemoryBlock) (s : InjectorState) : Bool × InjectorState :=
  let existingContent := getContentWithoutMemories MEMORY_HEADER s.content
  let memoryText := formatMemoriesForInjection memories
  if memoryText.isEmpty then (false, s)
  else
    (true,
      { content := memoryText ++ existingContent,
        injectedMemoryIds := memories.foldl (fun acc m => addIdIfNew acc m.id) s.injectedMemoryIds })

/-- Embeds `addSingleMemory` from `src/utils/memory-injection.ts` (same
resolved-editor setting as `injectMemoriesOp`). -/
def addSingleMemoryOp (memory : MemoryBlock) (s : InjectorState) : Bool × InjectorState :=
  if (match memory.id with
      | some i => decide (i ∈ s.injectedMemoryIds)
      | none => false) then (false, s)
  else
    let currentContent := s.content
    if includesStr currentContent MEMORY_HEADER then
      match subIndex MEMORY_FOOTER currentContent with
      | some footerIndex =>
        let memoryEntry := nlChar :: (('[' :: labelOf memory) ++ [']']) ++ nlChar :: memory.value ++ [nlChar]
        let newContent :=
          currentContent.take footerIndex ++ memoryEntry ++ currentContent.drop footerIndex
        (true, { content := newContent,
                 injectedMemoryIds := addIdIfNew s.injectedMemoryIds memory.id })
      | none => (false, s)
    else
      injectMemoriesOp [memory] s

/-- Witness for C1: the round-trip law instantiated at a concrete block list
and user text, with every hypothesis discharged by computation. -/
theorem stripOut_spliceIn_roundtrip_witness :
    (¬ HasOcc MEMORY_HEADER "hello".data) ∧ (¬ HasOcc MEMORY_FOOTER "hello".data) ∧
    getContentWithoutMemories MEMORY_HEADER
      (formatMemoriesForInjection [⟨none, "facts".data, "Uses a laptop".data⟩] ++ "hello".data)
        = trimChars "hello".data :=
  ⟨subIndex_none_not_occ _ _ (by decide),
   subIndex_none_not_occ _ _ (by decide),
   stripOut_spliceIn_roundtrip [⟨none, "facts".data, "Uses a laptop".data⟩] "hello".data
     (by
        intro b hb
        simp only [List.mem_singleton] at hb
        subst hb
        exact ⟨subIndex_none_not_occ _ _ (by decide), subIndex_none_not_occ _ _ (by decide),
               subIndex_none_not_occ _ _ (by decide), subIndex_none_not_occ _ _ (by decide)⟩)
     (subIndex_none_not_occ _ _ (by decide))
     (subIndex_none_not_occ _ _ (by decide))⟩

/-- Counterexample for C2: splicing the single block `{label: "facts",
value: "Uses a laptop"}` into an initially empty editor does not produce the
claimed string ending in two newline characters — the final empty element of
the joined line list contributes only one trailing newline. -/
theorem spliceIn_concrete_counterexample :
    (injectMemoriesOp [⟨none, "facts".data, "Uses a laptop".data⟩]
        ⟨[], []⟩).2.content ≠
      "=== RELEVANT MEMORIES FROM LETTA ===\n\n[facts]\nUses a laptop\n\n=== END MEMORIES ===\n\n".data := by
  decide

/-- Amended C2: on an initially empty editor the splice writes header, blank
line, labeled section, blank line, footer and exactly one trailing newline;
appending "hello" and stripping markers returns exactly "hello". -/
theorem spliceIn_concrete_amended :
    (injectMemoriesOp [⟨none, "facts".data, "Uses a laptop".data⟩] ⟨[], []⟩).1 = true ∧
    (injectMemoriesOp [⟨none, "facts".data, "Uses a laptop".data⟩] ⟨[], []⟩).2.content =
      "=== RELEVANT MEMORIES FROM LETTA ===\n\n[facts]\nUses a laptop\n\n=== END MEMORIES ===\n".data ∧
    getContentWithoutMemories MEMORY_HEADER
      ((injectMemoriesOp [⟨none, "facts".data, "Uses a laptop".data⟩] ⟨[], []⟩).2.content
        ++ "hello".data) = "hello".data := by
  refine ⟨by decide, by decide, by decide⟩

/-- Claim C3: when the editor content contains the header literal but the
footer literal is absent, `addSingleMemory` signals failure and is a no-op:
the content is never written (no `setInputValue` call is reached on this
path) and the injected-id set is unchanged. -/
theorem addOne_header_without_footer_noop (m : MemoryBlock) (s : InjectorState)
    (hH : HasOcc MEMORY_HEADER s.content) (hF : ¬ HasOcc MEMORY_FOOTER s.content) :
    addSingleMemoryOp m s = (false, s) := by
  have hinc : includesStr s.content MEMORY_HEADER = true := subIndex_isSome_of_occ _ _ hH
  have hnone : subIndex MEMORY_FOOTER s.content = none := subIndex_none_of_not_occ _ _ hF
  cases hid : (match m.id with
      | some i => decide (i ∈ s.injectedMemoryIds)
      | none => false) with
  | true => simp [addSingleMemoryOp, hid]
  | false => simp [addSingleMemoryOp, hid, hinc, hnone]

/-- Witness for C3 at a concrete malformed editor state. -/
theorem addOne_header_without_footer_noop_witness :
    HasOcc MEMORY_HEADER MEMORY_HEADER ∧ (¬ HasOcc MEMORY_FOOTER MEMORY_HEADER) ∧
    addSingleMemoryOp ⟨some "id1".data, "facts".data, "x".data⟩ ⟨MEMORY_HEADER, []⟩
      = (false, ⟨MEMORY_HEADER, []⟩) :=
  ⟨⟨0, by decide⟩, subIndex_none_not_occ _ _ (by decide),
   addOne_header_without_footer_noop _ _ ⟨0, by decide⟩
     (subIndex_none_not_occ _ _ (by decide))⟩

/-- Claim C6: when the header occurs in the editor content and no footer
occurrence starts at or after the header's position, the strip operation
truncates from the header to the end of the content, returning only the
trimmed text that preceded the header; the operation is a total function of
the content, so no error is ever raised to the caller. -/
theorem stripOut_malformed_truncates (content : List Char) (startIdx : Nat)
    (hH : subIndex MEMORY_HEADER content = some startIdx)
    (hF : ∀ j, isPre MEMORY_FOOTER (content.drop j) = true → j ≤ startIdx) :
    getContentWithoutMemories MEMORY_HEADER content = trimChars (content.take startIdx) := by
  cases hf : subIndex MEMORY_FOOTER content with
  | none => exact getContentWM_eval_some_none content startIdx hH hf
  | some e =>
    have he : e ≤ startIdx := hF e (subIndex_some_occ _ _ _ hf)
    rw [getContentWM_eval_some_some content startIdx e hH hf, if_neg (by omega)]

/-- Witness for C6: header at position 5, footer absent. -/
theorem stripOut_malformed_truncates_witness :
    getContentWithoutMemories MEMORY_HEADER ("  hi ".data ++ MEMORY_HEADER ++ "junk".data)
      = trimChars (("  hi ".data ++ MEMORY_HEADER ++ "junk".data).take 5) :=
  stripOut_malformed_truncates _ 5 (by decide)
    (fun j hj => absurd ⟨j, hj⟩ (subIndex_none_not_occ _ _ (by decide)))

/-- Claim C7: on an empty editor with no header present and a fresh
injected-id set, `addSingleMemory` delegates to `injectMemories` with the
singleton list, so results, content and id set coincide exactly. -/
theorem addOne_empty_equiv_spliceIn (m : MemoryBlock) :
    addSingleMemoryOp m ⟨[], []⟩ = injectMemoriesOp [m] ⟨[], []⟩ := by
  have hinc : includesStr ([] : List Char) MEMORY_HEADER = false := by decide
  cases hm : m.id with
  | none => simp [addSingleMemoryOp, hm, hinc]
  | some i => simp [addSingleMemoryOp, hm, hinc]

/-- Witness for C7 at a concrete block. -/
theorem addOne_empty_equiv_spliceIn_witness :
    addSingleMemoryOp ⟨some "b1".data, "facts".data, "Uses a laptop".data⟩ ⟨[], []⟩
      = injectMemoriesOp [⟨some "b1".data, "facts".data, "Uses a laptop".data⟩] ⟨[], []⟩ :=
  addOne_empty_equiv_spliceIn _

/-- The platform identities of `src/utils/dom-handlers.ts` (`Platform`,
minus the `null` case which is modelled as `Option Platform`). -/
inductive Platform where
  | chatgpt
  | claude
  | gemini
  | perplexity
deriving DecidableEq

/-- A located DOM element, reduced to the data the visibility check reads:
its rendered bounding-box dimensions and the computed `display` and
`visibility` styles.  (`getBoundingClientRect` returns floats; only
positivity of the dimensions matters, so they are modelled as `Nat`.) -/
structure Element where
  width : Nat
  height : Nat
  display : List Char
  visibility : List Char
deriving DecidableEq

/-- A document state, modelled as what `document.querySelector` answers for
each selector string; a selector that throws in the source is caught and
skipped, which is indistinguishable from returning no element. -/
def DomDoc : Type := List Char → Option Element

/-- Embeds `isVisible` from `src/utils/dom-handlers.ts`. -/
def isVisible (el : Element) : Bool :=
  decide (0 < el.width) && decide (0 < el.height) &&
    !(el.display == "none".data) && !(el.visibility == "hidden".data)

/-- Embeds `TEXTAREA_SELECTORS` from `src/utils/dom-handlers.ts`. -/
def TEXTAREA_SELECTORS : Platform → List (List Char)
  | .chatgpt =>
    ["#prompt-textarea".data,
     "div[contenteditable=\"true\"][data-id=\"root\"]".data,
     "div[contenteditable=\"true\"]".data,
     "textarea".data]
  | .claude =>
    ["div[contenteditable=\"true\"].ProseMirror".data,
     "div[contenteditable=\"true\"]".data,
     "textarea".data,
     "p[data-placeholder=\"How can I help you today?\"]".data,
     "p[data-placeholder=\"Reply to Claude...\"]".data]
  | .gemini =>
    ["rich-textarea .ql-editor[contenteditable=\"true\"]".data,
     "rich-textarea .ql-editor.textarea".data,
     ".ql-editor[aria-label=\"Enter a prompt here\"]".data,
     ".ql-editor.textarea.new-input-ui".data,
     ".text-input-field_textarea .ql-editor".data,
     "div[contenteditable=\"true\"][role=\"textbox\"][aria-label=\"Enter a prompt here\"]".data]
  | .perplexity =>
    ["div#ask-input[contenteditable=\"true\"]".data,
     "textarea#ask-input".data,
     "div[contenteditable=\"true\"][aria-placeholder^=\"Ask\"]".data,
     "textarea[placeholder^=\"Ask\"]".data,
     "textarea[placeholder^=\"Ask a follow-up\"]".data,
     "div[contenteditable=\"true\"]".data,
     "textarea".data]

/-- Embeds `SEND_BUTTON_SELECTORS` from `src/utils/dom-handlers.ts`. -/
def SEND_BUTTON_SELECTORS : Platform → List (List Char)
  | .chatgpt =>
    ["button[data-testid=\"send-button\"]".data,
     "button[aria-label=\"Send prompt\"]".data,
     "form button[type=\"submit\"]".data]
  | .claude =>
    ["button[aria-label=\"Send Message\"]".data,
     "button[aria-label=\"Send message\"]".data,
     "fieldset button:not([aria-label])".data,
     "button:has(svg[viewBox=\"0 0 256 256\"])".data]
  | .gemini =>
    ["button[aria-label=\"Send message\"]".data,
     "button[data-testid=\"send-button\"]".data,
     "button[type=\"submit\"]:not([aria-label*=\"attachment\"])".data,
     ".send-button".data,
     "button[aria-label*=\"Send\"]".data,
     "button[title*=\"Send\"]".data]
  | .perplexity =>
    ["button[data-cy=\"ai-prompt-submit\"]".data,
     "button[data-cy=\"ai-chat-send-button\"]".data,
     "button[aria-label=\"Send\"]".data,
     "button[type=\"button\"][aria-label=\"Send\"]".data,
     "button[aria-label=\"Submit\"]".data,
     "button[type=\"submit\"]".data]

/-- The shared selector loop of `getTextarea` and `getSendButton`: walk the
ordered selector list, query each, and return the first present and visible
candidate. -/
def findFirstVisible (doc : DomDoc) : List (List Char) → Option Element
  | [] => none
  | sel :: rest =>
    match doc sel with
    | some el => if isVisible el then some el else findFirstVisible doc rest
    | none => findFirstVisible doc rest

/-- Embeds `getTextarea` (with the `platform || detectPlatform()` resolution
already performed: `none` stands for the unresolved-platform early return). -/
def getTextarea (doc : DomDoc) (p : Option Platform) : Option Element :=
  match p with
  | none => none
  | some p => findFirstVisible doc (TEXTAREA_SELECTORS p)

/-- Embeds `getSendButton` under the same convention as `getTextarea`. -/
def getSendButton (doc : DomDoc) (p : Option Platform) : Option Element :=
  match p with
  | none => none
  | some p => findFirstVisible doc (SEND_BUTTON_SELECTORS p)

/-- The first-visible contract: `none` means every listed selector either
matched nothing or matched only an invisible element; `some el` means some
selector matched the visible `el` while every earlier selector matched
nothing or something invisible. -/
def FirstVisibleSpec (doc : DomDoc) (sels : List (List Char)) : Option Element → Prop
  | none => ∀ sel ∈ sels, ∀ el, doc sel = some el → isVisible el = false
  | some el => isVisible el = true ∧
      ∃ pre sel post, sels = pre ++ sel :: post ∧ doc sel = some el ∧
        ∀ s2 ∈ pre, ∀ el2, doc s2 = some el2 → isVisible el2 = false

theorem findFirstVisible_spec (doc : DomDoc) (sels : List (List Char)) :
    FirstVisibleSpec doc sels (findFirstVisible doc sels) := by
  induction sels with
  | nil =>
    simp [findFirstVisible, FirstVisibleSpec]
  | cons sel rest ih =>
    rw [findFirstVisible]
    cases hq : doc sel with
    | some el =>
      cases hv : isVisible el with
      | true =>
        simp only [if_pos hv, FirstVisibleSpec]
        exact ⟨hv, [], sel, rest, rfl, hq, by intro s2 hs2; cases hs2⟩
      | false =>
        simp only [hv, Bool.false_eq_true, if_false]
        cases hrec : findFirstVisible doc rest with
        | none =>
          rw [hrec] at ih
          intro s2 hs2 el2 hel2
          rcases List.mem_cons.mp hs2 with h1 | h2
          · subst h1
            rw [hq] at hel2
            cases hel2
            exact hv
          · exact ih s2 h2 el2 hel2
        | some el2 =>
          rw [hrec] at ih
          obtain ⟨hvis, pre, s3, post, hsplit, hdoc, hpre⟩ := ih
          refine ⟨hvis, sel :: pre, s3, post, by rw [hsplit, List.cons_append], hdoc, ?_⟩
          intro s4 hs4 el4 hel4
          rcases List.mem_cons.mp hs4 with h1 | h2
          · subst h1
            rw [hq] at hel4
            cases hel4
            exact hv
          · exact hpre s4 h2 el4 hel4
    | none =>
      cases hrec : findFirstVisible doc rest with
      | none =>
        rw [hrec] at ih
        intro s2 hs2 el2 hel2
        rcases List.mem_cons.mp hs2 with h1 | h2
        · subst h1
          rw [hq] at hel2
          cases hel2
        · exact ih s2 h2 el2 hel2
      | some el2 =>
        rw [hrec] at ih
        obtain ⟨hvis, pre, s3, post, hsplit, hdoc, hpre⟩ := ih
        refine ⟨hvis, sel :: pre, s3, post, by rw [hsplit, List.cons_append], hdoc, ?_⟩
        intro s4 hs4 el4 hel4
        rcases List.mem_cons.mp hs4 with h1 | h2
        · subst h1
          rw [hq] at hel4
          cases hel4
        · exact hpre s4 h2 el4 hel4

/-- Claim C5: for every document state and platform, both surface lookups
(`getTextarea` and `getSendButton`) walk the platform's ordered selector list
and return the first present-and-visible candidate — a later selector is
consulted only when all earlier ones fail or match only invisible elements —
and return `none` when every selector is exhausted (including the
unresolved-platform case). -/
theorem locate_first_visible (doc : DomDoc) (p : Platform) :
    FirstVisibleSpec doc (TEXTAREA_SELECTORS p) (getTextarea doc (some p)) ∧
    FirstVisibleSpec doc (SEND_BUTTON_SELECTORS p) (getSendButton doc (some p)) ∧
    getTextarea doc none = none ∧ getSendButton doc none = none :=
  ⟨findFirstVisible_spec doc (TEXTAREA_SELECTORS p),
   findFirstVisible_spec doc (SEND_BUTTON_SELECTORS p), rfl, rfl⟩

/-- Witness for C5 at a concrete document: only the third ChatGPT textarea
selector matches a visible element. -/
theorem locate_first_visible_witness :
    FirstVisibleSpec
      (fun sel => if sel = "div[contenteditable=\"true\"]".data
                  then some ⟨120, 40, "flex".data, "visible".data⟩ else none)
      (TEXTAREA_SELECTORS Platform.chatgpt)
      (getTextarea
        (fun sel => if sel = "div[contenteditable=\"true\"]".data
                    then some ⟨120, 40, "flex".data, "visible".data⟩ else none)
        (some Platform.chatgpt)) :=
  (locate_first_visible _ Platform.chatgpt).1

/-- The two shapes of the engine-owned control root from
`src/universal-injector.ts`: an inline wrapper `span` inserted into the host
layout, or the fixed-position `#letta-floating-container` root (which also
carries the scroll/resize teardown closure). Both contain the
`#letta-icon-button` control. -/
inductive HostKind where
  | inlineRoot
  | floatingRoot
deriving DecidableEq

/-- State of the content script's UI machinery (`src/universal-injector.ts`):
counts of mounted engine controls in the document, whether the floating
container's window-level listeners are registered, the tracked `buttonHost`
reference, the watcher/retry flags, and the static availability of each
platform-specific anchor the mounting strategies probe for. -/
structure MState where
  inlineControls : Nat
  floatingControls : Nat
  listenerActive : Bool
  buttonHost : Option HostKind
  watcherStarted : Bool
  retryScheduled : Bool
  cgPlus : Bool
  cgPlusParent : Bool
  cgLeading : Bool
  cgSubmit : Bool
  clSend : Bool
  clTools : Bool
  gmMainArea : Bool
  gmToolbox : Bool
  gmSend : Bool
  pxRadio : Bool
  pxControls : Bool
  pxInput : Bool
  pxFlexParent : Bool
  genSend : Bool
  genAnchor : Bool
deriving DecidableEq

/-- Number of engine controls in the document (each mounted root, inline or
floating, contains exactly one `#letta-icon-button`). -/
def controlCount (s : MState) : Nat := s.inlineControls + s.floatingControls

/-- `createLettaButton` + insertion of the wrapper at an inline anchor. -/
def insertInline (s : MState) : MState :=
  { s with inlineControls := s.inlineControls + 1, buttonHost := some .inlineRoot }

/-- The floating-container branch of `mountPerplexityButton`: inserts the
fixed-position root, registers the scroll/resize listeners and stashes the
teardown closure on the root. -/
def insertFloating (s : MState) : MState :=
  { s with floatingControls := s.floatingControls + 1, listenerActive := true,
           buttonHost := some .floatingRoot }

/-- Embeds `mountChatGPTButton`: plus-button strategies, then send button. -/
def mountChatGPTButton (s : MState) : Bool × MState :=
  if s.cgPlus && s.cgPlusParent then (true, insertInline s)
  else if s.cgPlus && s.cgLeading then (true, insertInline s)
  else if s.cgSubmit then (true, insertInline s)
  else (false, s)

/-- Embeds `mountClaudeButton`: send button, then tools-menu trigger. -/
def mountClaudeButton (s : MState) : Bool × MState :=
  if s.clSend then (true, insertInline s)
  else if s.clTools then (true, insertInline s)
  else (false, s)

/-- Embeds `mountGeminiButton`: main area, toolbox drawer, then send button. -/
def mountGeminiButton (s : MState) : Bool × MState :=
  if s.gmMainArea then (true, insertInline s)
  else if s.gmToolbox then (true, insertInline s)
  else if s.gmSend then (true, insertInline s)
  else (false, s)

/-- Embeds `mountPerplexityButton`: radiogroup, controls row, flex parent of
the input, then the floating-container fallback near the input. -/
def mountPerplexityButton (s : MState) : Bool × MState :=
  if s.pxRadio then (true, insertInline s)
  else if s.pxControls then (true, insertInline s)
  else if s.pxInput && s.pxFlexParent then (true, insertInline s)
  else if s.pxInput then (true, insertFloating s)
  else (false, s)

/-- Embeds `mountGenericButton`: send button, then derived anchor. -/
def mountGenericButton (s : MState) : Bool × MState :=
  if s.genSend then (true, insertInline s)
  else if s.genAnchor then (true, insertInline s)
  else (false, s)

/-- First phase of `removeUI`: look up `#letta-floating-container`, invoke
its `_cleanup` closure (releasing the window listeners) and remove it. -/
def removeFloating (s : MState) : MState :=
  if 0 < s.floatingControls then
    { s with floatingControls := s.floatingControls - 1, listenerActive := false }
  else s

/-- Second phase of `removeUI`: remove the tracked `buttonHost` root,
invoking its `_cleanup` (present only on the floating root) first; the
`isConnected` guard of the source corresponds to the saturating decrement. -/
def removeHost (s : MState) : MState :=
  match s.buttonHost with
  | none => s
  | some .inlineRoot => { s with inlineControls := s.inlineControls - 1, buttonHost := none }
  | some .floatingRoot => { s with listenerActive := false, buttonHost := none }

/-- Embeds `removeUI` from `src/universal-injector.ts`. -/
def removeUI (s : MState) : MState := removeHost (removeFloating s)

/-- The platform dispatch (`switch (platform)`) inside `mountButtonOnEditor`;
the `null`/default case runs the generic strategy. -/
def mountAttempt (p : Option Platform) (s : MState) : Bool × MState :=
  match p with
  | some .chatgpt => mountChatGPTButton s
  | some .claude => mountClaudeButton s
  | some .gemini => mountGeminiButton s
  | some .perplexity => mountPerplexityButton s
  | none => mountGenericButton s

/-- The zombie-reference cleanup at the top of `mountButtonOnEditor`:
`if (buttonHost) removeUI()`. -/
def preClean (s : MState) : MState := if s.buttonHost.isSome then removeUI s else s

/-- `buttonWatcherStarted` guard + `startButtonWatcher()` at the end of
`mountButtonOnEditor`. -/
def startWatcher (t : MState) : MState :=
  if t.watcherStarted then t else { t with watcherStarted := true }

/-- The tail of `mountButtonOnEditor`: schedule a retry on failure, then
start the watcher once. -/
def finishMount : Bool × MState → MState
  | (true, t) => startWatcher t
  | (false, t) => startWatcher { t with retryScheduled := true }

/-- Embeds `mountButtonOnEditor` from `src/universal-injector.ts`: early
return when `#letta-icon-button` or `#letta-floating-container` already
exists, otherwise cleanup of a stale reference, the platform strategy
dispatch, retry scheduling and the one-shot watcher start. -/
def mountButtonOnEditor (p : Option Platform) (s : MState) : MState :=
  if 0 < controlCount s ∨ 0 < s.floatingControls then s
  else finishMount (mountAttempt p (preClean s))

theorem controlCount_insertInline (t : MState) :
    controlCount (insertInline t) = controlCount t + 1 := by
  simp only [insertInline, controlCount]
  omega

theorem controlCount_insertFloating (t : MState) :
    controlCount (insertFloating t) = controlCount t + 1 := by
  simp only [insertFloating, controlCount]
  omega

theorem mountAttempt_spec (p : Option Platform) (s : MState) :
    ((mountAttempt p s).1 = false ∧ (mountAttempt p s).2 = s) ∨
    ((mountAttempt p s).1 = true ∧ controlCount (mountAttempt p s).2 = controlCount s + 1) := by
  rcases p with _ | pp
  · simp only [mountAttempt, mountGenericButton]
    split_ifs <;>
      simp [controlCount_insertInline, controlCount_insertFloating]
  · cases pp <;>
      (simp only [mountAttempt, mountChatGPTButton, mountClaudeButton, mountGeminiButton,
        mountPerplexityButton]
       split_ifs <;>
         simp [controlCount_insertInline, controlCount_insertFloating])

theorem controlCount_finishMount (b : Bool) (t : MState) :
    controlCount (finishMount (b, t)) = controlCount t := by
  cases b <;> (simp only [finishMount, startWatcher]; split_ifs <;> rfl)

theorem removeFloating_counts (s : MState) (h2 : s.floatingControls = 0) :
    removeFloating s = s := by
  simp [removeFloating, h2]

theorem preClean_counts (s : MState) (h1 : s.inlineControls = 0) (h2 : s.floatingControls = 0) :
    controlCount (preClean s) = 0 := by
  simp only [preClean]
  split_ifs with hb
  · simp only [removeUI, removeFloating_counts s h2, removeHost]
    cases hh : s.buttonHost with
    | none => simp [controlCount, h1, h2]
    | some k => cases k <;> simp [controlCount, h1, h2]
  · simp [controlCount, h1, h2]

/-- Helper: the early-return guard of `mountButtonOnEditor`. -/
theorem mount_noop_of_present (p : Option Platform) (s : MState)
    (h : 0 < controlCount s ∨ 0 < s.floatingControls) : mountButtonOnEditor p s = s := by
  rw [mountButtonOnEditor, if_pos h]

theorem mount_from_clean_le_one (p : Option Platform) (s : MState)
    (h1 : s.inlineControls = 0) (h2 : s.floatingControls = 0) :
    controlCount (mountButtonOnEditor p s) ≤ 1 := by
  rw [mountButtonOnEditor, if_neg (by simp [controlCount, h1, h2])]
  have hpc := preClean_counts s h1 h2
  rcases mountAttempt_spec p (preClean s) with ⟨hf, heq⟩ | ⟨ht, hc⟩
  · have : mountAttempt p (preClean s) = (false, preClean s) := by
      cases hma : mountAttempt p (preClean s)
      rw [hma] at hf heq
      simp at hf heq
      rw [hf, heq]
    rw [this, controlCount_finishMount]
    omega
  · cases hma : mountAttempt p (preClean s) with
    | mk b t =>
      rw [hma] at ht hc
      simp at ht hc
      subst ht
      rw [controlCount_finishMount]
      omega

/-- Claim C4: `mountButtonOnEditor` is idempotent — when the control (icon
button or floating container) already exists in the document it returns
without modifying anything; consequently, starting from a control-free
document, a successful mount yields exactly one control and a second
invocation with no DOM change in between is a no-op, leaving exactly one
control present. -/
theorem mount_idempotent (p : Option Platform) (s : MState) :
    ((0 < controlCount s ∨ 0 < s.floatingControls) → mountButtonOnEditor p s = s) ∧
    (controlCount s = 0 → 0 < controlCount (mountButtonOnEditor p s) →
      controlCount (mountButtonOnEditor p s) = 1 ∧
      mountButtonOnEditor p (mountButtonOnEditor p s) = mountButtonOnEditor p s) := by
  constructor
  · intro h
    exact mount_noop_of_present p s h
  · intro h0 hpos
    have h1 : s.inlineControls = 0 := by
      simp only [controlCount] at h0
      omega
    have h2 : s.floatingControls = 0 := by
      simp only [controlCount] at h0
      omega
    have hle := mount_from_clean_le_one p s h1 h2
    refine ⟨by omega, ?_⟩
    exact mount_noop_of_present p (mountButtonOnEditor p s) (Or.inl (by omega))

/-- Witness for C4: a clean document whose only available anchor is the
generic send-button strategy. -/
theorem mount_idempotent_witness :
    controlCount (mountButtonOnEditor none
      ⟨0, 0, false, none, false, false, false, false, false, false, false, false,
       false, false, false, false, false, false, false, true, false⟩) = 1 ∧
    mountButtonOnEditor none (mountButtonOnEditor none
      ⟨0, 0, false, none, false, false, false, false, false, false, false, false,
       false, false, false, false, false, false, false, true, false⟩)
      = mountButtonOnEditor none
      ⟨0, 0, false, none, false, false, false, false, false, false, false, false,
       false, false, false, false, false, false, false, true, false⟩ :=
  (mount_idempotent none _).2 (by decide) (by decide)

/-- States reachable by the engine's own mount/remove operations: at most one
control of each shape, the tracked reference pointing at the mounted root,
and window listeners registered only for a tracked floating root. -/
def MWF (s : MState) : Prop :=
  (0 < s.inlineControls → s.inlineControls = 1 ∧ s.buttonHost = some HostKind.inlineRoot) ∧
  (0 < s.floatingControls → s.floatingControls = 1 ∧ s.buttonHost = some HostKind.floatingRoot) ∧
  (s.listenerActive = true → s.buttonHost = some HostKind.floatingRoot)

/-- On a well-formed state, `removeUI` removes every engine control, releases
the window listeners (the teardown closure runs before the root is removed)
and drops the tracked reference. -/
theorem removeUI_resets (s : MState) (hwf : MWF s) :
    controlCount (removeUI s) = 0 ∧ (removeUI s).listenerActive = false ∧
    (removeUI s).buttonHost = none := by
  obtain ⟨hi, hf, hl⟩ := hwf
  by_cases h2 : 0 < s.floatingControls
  · obtain ⟨hf1, hfbh⟩ := hf h2
    have hizero : s.inlineControls = 0 := by
      by_contra hne
      have hbh := (hi (Nat.pos_of_ne_zero hne)).2
      rw [hfbh] at hbh
      cases hbh
    simp [removeUI, removeFloating, if_pos h2, removeHost, hfbh, controlCount, hizero, hf1]
  · have h2z : s.floatingControls = 0 := by omega
    have hrf : removeFloating s = s := removeFloating_counts s h2z
    cases hbh : s.buttonHost with
    | none =>
      have hiz : s.inlineControls = 0 := by
        by_contra hne
        have := (hi (Nat.pos_of_ne_zero hne)).2
        rw [hbh] at this
        cases this
      have hlz : s.listenerActive = false := by
        cases hll : s.listenerActive
        · rfl
        · have := hl hll
          rw [hbh] at this
          cases this
      simp [removeUI, hrf, removeHost, hbh, controlCount, hiz, h2z, hlz]
    | some k =>
      cases k with
      | inlineRoot =>
        have hlz : s.listenerActive = false := by
          cases hll : s.listenerActive
          · rfl
          · have := hl hll
            rw [hbh] at this
            cases this
        have hile : s.inlineControls ≤ 1 := by
          by_cases hip : 0 < s.inlineControls
          · exact Nat.le_of_eq (hi hip).1
          · omega
        simp [removeUI, hrf, removeHost, hbh, controlCount, h2z, hlz]
        omega
      | floatingRoot =>
        have hiz : s.inlineControls = 0 := by
          by_contra hne
          have := (hi (Nat.pos_of_ne_zero hne)).2
          rw [hbh] at this
          cases this
        simp [removeUI, hrf, removeHost, hbh, controlCount, hiz, h2z]

/-- The page-level state touched by the navigation monitor of
`src/universal-injector.ts`: the UI state, the injection module's
`injectedMemoryIds`, and the monitor's `lastUrl`. -/
structure PageState where
  ui : MState
  injectedMemoryIds : List (List Char)
  lastUrl : List Char
deriving DecidableEq

/-- The single kind of work the URL monitor defers with `setTimeout`:
re-mounting the button and re-attaching the send/keydown capture listeners. -/
inductive ScheduledTag where
  | remountAndListen
deriving DecidableEq

/-- A deferred task together with its fixed delay in milliseconds. -/
structure Scheduled where
  delayMs : Nat
  tag : ScheduledTag
deriving DecidableEq

/-- Embeds one tick of `setupUrlMonitoring`'s interval handler: when the
polled address differs from `lastUrl`, it synchronously updates `lastUrl`,
runs `removeUI` and `resetInjectionState` (clearing `injectedMemoryIds`),
and schedules the re-mount 500 ms later. -/
def urlTick (href : List Char) (s : PageState) : PageState × Option Scheduled :=
  if href = s.lastUrl then (s, none)
  else
    ({ ui := removeUI s.ui, injectedMemoryIds := [], lastUrl := href },
     some ⟨500, .remountAndListen⟩)

/-- Running the deferred task of `setupUrlMonitoring`:
`mountButtonOnEditor(); addSendListeners()`. -/
def runScheduled (p : Option Platform) (t : ScheduledTag) (s : PageState) : PageState :=
  match t with
  | .remountAndListen => { s with ui := mountButtonOnEditor p s.ui }

/-- Claim C8: when the polled address changes, the monitor synchronously
removes the overlay — discharging any attached teardown closure, so no
window listener survives — and clears the injected-memory set, leaving the
overlay absent immediately after the tick; the re-mount runs only as the
scheduled task with the fixed 500 ms delay, after which the overlay is
present again (one control), provided the post-navigation page still offers
a mounting anchor. -/
theorem urlchange_teardown_then_remount (p : Option Platform) (href : List Char) (s : PageState)
    (hchange : href ≠ s.lastUrl) (hwf : MWF s.ui)
    (hmount : (mountAttempt p (removeUI s.ui)).1 = true) :
    controlCount (urlTick href s).1.ui = 0 ∧
    (urlTick href s).1.ui.listenerActive = false ∧
    (urlTick href s).1.injectedMemoryIds = [] ∧
    (urlTick href s).2 = some ⟨500, ScheduledTag.remountAndListen⟩ ∧
    controlCount (runScheduled p ScheduledTag.remountAndListen (urlTick href s).1).ui = 1 := by
  obtain ⟨hc0, hl0, hbh0⟩ := removeUI_resets s.ui hwf
  have htick : urlTick href s =
      ({ ui := removeUI s.ui, injectedMemoryIds := [], lastUrl := href },
       some ⟨500, ScheduledTag.remountAndListen⟩) := by
    rw [urlTick, if_neg hchange]
  rw [htick]
  refine ⟨hc0, hl0, rfl, rfl, ?_⟩
  simp only [runScheduled]
  rw [mountButtonOnEditor, if_neg (by
    rintro (h | h)
    · omega
    · simp only [controlCount] at hc0
      omega)]
  have hpre : preClean (removeUI s.ui) = removeUI s.ui := by
    simp [preClean, hbh0]
  rw [hpre]
  rcases mountAttempt_spec p (removeUI s.ui) with ⟨hfalse, _⟩ | ⟨htrue, hcnt⟩
  · rw [hmount] at hfalse
    cases hfalse
  · cases hma : mountAttempt p (removeUI s.ui) with
    | mk b t =>
      rw [hma] at htrue hcnt
      simp only at htrue hcnt
      subst htrue
      rw [controlCount_finishMount]
      omega

/-- Witness for C8: a navigation from one address to another with one
injected id, a mounted generic-anchored overlay being replaced. -/
theorem urlchange_teardown_then_remount_witness :
    controlCount (urlTick "https://b".data
      ⟨⟨1, 0, false, some HostKind.inlineRoot, true, false, false, false, false, false,
        false, false, false, false, false, false, false, false, false, true, false⟩,
       ["m1".data], "https://a".data⟩).1.ui = 0 ∧
    (urlTick "https://b".data
      ⟨⟨1, 0, false, some HostKind.inlineRoot, true, false, false, false, false, false,
        false, false, false, false, false, false, false, false, false, true, false⟩,
       ["m1".data], "https://a".data⟩).1.ui.listenerActive = false ∧
    (urlTick "https://b".data
      ⟨⟨1, 0, false, some HostKind.inlineRoot, true, false, false, false, false, false,
        false, false, false, false, false, false, false, false, false, true, false⟩,
       ["m1".data], "https://a".data⟩).1.injectedMemoryIds = [] ∧
    (urlTick "https://b".data
      ⟨⟨1, 0, false, some HostKind.inlineRoot, true, false, false, false, false, false,
        false, false, false, false, false, false, false, false, false, true, false⟩,
       ["m1".data], "https://a".data⟩).2 = some ⟨500, ScheduledTag.remountAndListen⟩ ∧
    controlCount (runScheduled none ScheduledTag.remountAndListen (urlTick "https://b".data
      ⟨⟨1, 0, false, some HostKind.inlineRoot, true, false, false, false, false, false,
        false, false, false, false, false, false, false, false, false, true, false⟩,
       ["m1".data], "https://a".data⟩).1).ui = 1 :=
  urlchange_teardown_then_remount none "https://b".data _
    (by decide)
    ⟨fun _ => ⟨rfl, rfl⟩, fun h => absurd h (by decide), fun h => nomatch h⟩
    (by decide)

/-- Message roles in the host page's rendered conversation. -/
inductive Role where
  | user
  | assistant
deriving DecidableEq

/-- A rendered message of the host page: its role (which of the platform's
two `MESSAGE_SELECTORS` matches it) and its text content.  The page's
message list is modelled in document order. -/
structure PageMsg where
  role : Role
  content : List Char
deriving DecidableEq

/-- Pair each rendered message with its document position. -/
def withIdx : Nat → List PageMsg → List (Nat × PageMsg)
  | _, [] => []
  | n, m :: ms => (n, m) :: withIdx (n + 1) ms

/-- Insertion step of the document-position sort. -/
def insertByPos (x : Nat × PageMsg) : List (Nat × PageMsg) → List (Nat × PageMsg)
  | [] => [x]
  | y :: ys => if x.1 ≤ y.1 then x :: y :: ys else y :: insertByPos x ys

/-- The `allElements.sort(comparator)` call of `getRecentMessages`: the
comparator (`compareDocumentPosition`) is a strict total order on distinct
nodes, so the sort returns the unique permutation ordered by document
position; modelled as an insertion sort on the position key. -/
def sortByPos : List (Nat × PageMsg) → List (Nat × PageMsg)
  | [] => []
  | x :: xs => insertByPos x (sortByPos xs)

/-- Loop body of `getRecentMessages`: trim the element text, skip empties,
truncate to 500 characters. -/
def pushRecent (acc : List PageMsg) (x : Nat × PageMsg) : List PageMsg :=
  if (trimChars x.2.content).isEmpty then acc
  else acc ++ [⟨x.2.role, (trimChars x.2.content).take 500⟩]

/-- The per-message processing of `getRecentMessages` as an optional-result map. -/
def procMsg (m : PageMsg) : Option PageMsg :=
  if (trimChars m.content).isEmpty then none
  else some ⟨m.role, (trimChars m.content).take 500⟩

/-- Embeds `getRecentMessages` from `src/universal-injector.ts`: query the
user and assistant message elements, merge and sort by document position,
keep the last `count`, then trim/filter/truncate each. -/
def getRecentMessages (msgs : List PageMsg) (count : Nat) : List PageMsg :=
  let indexed := withIdx 0 msgs
  let userElements := indexed.filter (fun x => x.2.role == Role.user)
  let assistantElements := indexed.filter (fun x => x.2.role == Role.assistant)
  let sorted := sortByPos (userElements ++ assistantElements)
  let recent := sorted.drop (sorted.length - count)
  recent.foldl pushRecent []

/-- The `recentContext` of a capture emission: `captureAndSync` calls
`getRecentMessages(2)`. -/
def captureContext (msgs : List PageMsg) : List PageMsg := getRecentMessages msgs 2

theorem insertByPos_perm (x : Nat × PageMsg) (l : List (Nat × PageMsg)) :
    List.Perm (insertByPos x l) (x :: l) := by
  induction l with
  | nil => exact List.Perm.refl _
  | cons y ys ih =>
    rw [insertByPos]
    split_ifs
    · exact List.Perm.refl _
    · exact (ih.cons y).trans (List.Perm.swap x y ys)

theorem sortByPos_perm (l : List (Nat × PageMsg)) : List.Perm (sortByPos l) l := by
  induction l with
  | nil => exact List.Perm.refl _
  | cons x xs ih => exact (insertByPos_perm x (sortByPos xs)).trans (ih.cons x)

theorem insertByPos_pairwise (x : Nat × PageMsg) (l : List (Nat × PageMsg))
    (h : l.Pairwise (fun a b => a.1 ≤ b.1)) :
    (insertByPos x l).Pairwise (fun a b => a.1 ≤ b.1) := by
  induction l with
  | nil => simp [insertByPos]
  | cons y ys ih =>
    rw [List.pairwise_cons] at h
    obtain ⟨hy, hys⟩ := h
    rw [insertByPos]
    split_ifs with hle
    · refine List.Pairwise.cons ?_ (List.pairwise_cons.mpr ⟨hy, hys⟩)
      intro b hb
      rcases List.mem_cons.mp hb with rfl | hb2
      · exact hle
      · exact Nat.le_trans hle (hy b hb2)
    · refine List.Pairwise.cons ?_ (ih hys)
      intro b hb
      rcases List.mem_cons.mp ((insertByPos_perm x ys).mem_iff.mp hb) with rfl | hb2
      · omega
      · exact hy b hb2

theorem sortByPos_pairwise (l : List (Nat × PageMsg)) :
    (sortByPos l).Pairwise (fun a b => a.1 ≤ b.1) := by
  induction l with
  | nil => simp [sortByPos]
  | cons x xs ih => exact insertByPos_pairwise x _ ih

theorem withIdx_key_ge (n : Nat) (ms : List PageMsg) : ∀ y ∈ withIdx n ms, n ≤ y.1 := by
  induction ms generalizing n with
  | nil => intro y hy; cases hy
  | cons m ms ih =>
    intro y hy
    rcases List.mem_cons.mp hy with rfl | hy2
    · exact Nat.le_refl n
    · exact Nat.le_trans (Nat.le_succ n) (ih (n + 1) y hy2)

theorem withIdx_pairwise_lt (n : Nat) (ms : List PageMsg) :
    (withIdx n ms).Pairwise (fun a b => a.1 < b.1) := by
  induction ms generalizing n with
  | nil => simp [withIdx]
  | cons m ms ih =>
    rw [withIdx]
    refine List.Pairwise.cons ?_ (ih (n + 1))
    intro b hb
    have := withIdx_key_ge (n + 1) ms b hb
    omega

theorem withIdx_length (n : Nat) (ms : List PageMsg) :
    (withIdx n ms).length = ms.length := by
  induction ms generalizing n with
  | nil => rfl
  | cons m ms ih => simp [withIdx, ih]

theorem withIdx_drop (n k : Nat) (ms : List PageMsg) :
    (withIdx n ms).drop k = withIdx (n + k) (ms.drop k) := by
  induction ms generalizing n k with
  | nil => simp [withIdx]
  | cons m ms ih =>
    cases k with
    | zero => simp [withIdx]
    | succ k2 =>
      rw [withIdx]
      simp only [List.drop_succ_cons]
      rw [ih (n + 1) k2]
      congr 1
      omega

theorem withIdx_filterMap (n : Nat) (ms : List PageMsg) :
    (withIdx n ms).filterMap (fun x => procMsg x.2) = ms.filterMap procMsg := by
  induction ms generalizing n with
  | nil => rfl
  | cons m ms ih =>
    rw [withIdx]
    simp only [List.filterMap_cons]
    cases procMsg m <;> simp [ih]

theorem foldl_pushRecent (l : List (Nat × PageMsg)) (acc : List PageMsg) :
    l.foldl pushRecent acc = acc ++ l.filterMap (fun x => procMsg x.2) := by
  induction l generalizing acc with
  | nil => simp
  | cons x xs ih =>
    rw [List.foldl_cons, ih]
    by_cases hc : trimChars x.2.content = []
    · simp [pushRecent, procMsg, hc, List.filterMap_cons]
    · simp [pushRecent, procMsg, hc, List.filterMap_cons, List.isEmpty_iff,
        List.append_assoc]

theorem eq_of_perm_posLt (l₁ l₂ : List (Nat × PageMsg)) (hp : List.Perm l₁ l₂)
    (h1 : l₁.Pairwise (fun a b => a.1 < b.1)) (h2 : l₂.Pairwise (fun a b => a.1 < b.1)) :
    l₁ = l₂ := by
  haveI : IsAntisymm (Nat × PageMsg) (fun a b => a.1 < b.1) :=
    ⟨fun a b hab hba => absurd (Nat.lt_trans hab hba) (Nat.lt_irrefl _)⟩
  exact List.eq_of_perm_of_sorted hp h1 h2

/-- Sorting the merged user/assistant element lists by document position
recovers the page's message list in document order. -/
theorem sortAll_eq (msgs : List PageMsg) :
    sortByPos ((withIdx 0 msgs).filter (fun x => x.2.role == Role.user) ++
               (withIdx 0 msgs).filter (fun x => x.2.role == Role.assistant)) =
      withIdx 0 msgs := by
  have hfeq : (withIdx 0 msgs).filter (fun x => x.2.role == Role.assistant)
      = (withIdx 0 msgs).filter (fun x => !(x.2.role == Role.user)) := by
    apply List.filter_congr
    intro x hx
    cases hx2 : x.2.role <;> simp [hx2]
  have hperm : List.Perm ((withIdx 0 msgs).filter (fun x => x.2.role == Role.user) ++
      (withIdx 0 msgs).filter (fun x => x.2.role == Role.assistant)) (withIdx 0 msgs) := by
    rw [hfeq]
    exact List.filter_append_perm _ _
  have hperm2 := (sortByPos_perm _).trans hperm
  have hle := sortByPos_pairwise ((withIdx 0 msgs).filter (fun x => x.2.role == Role.user) ++
      (withIdx 0 msgs).filter (fun x => x.2.role == Role.assistant))
  have hlt2 := withIdx_pairwise_lt 0 msgs
  have hne2 : (withIdx 0 msgs).Pairwise (fun a b => a.1 ≠ b.1) :=
    hlt2.imp (fun h => Nat.ne_of_lt h)
  have hne1 := (hperm2.pairwise_iff (fun hab => Ne.symm hab)).mpr hne2
  have hlt1 := (hle.and hne1).imp (fun h => Nat.lt_of_le_of_ne h.1 h.2)
  exact eq_of_perm_posLt _ _ hperm2 hlt1 hlt2

/-- Claim C9: the `recentContext` of every capture emission is exactly the
last two messages of the page's rendered message list in document order
(most recent last), with blank messages skipped and each content trimmed and
truncated to 500 characters; in particular it holds at most 2 entries, each
at most 500 characters long. -/
theorem recentContext_last_two (msgs : List PageMsg) :
    captureContext msgs = (msgs.drop (msgs.length - 2)).filterMap procMsg ∧
    (captureContext msgs).length ≤ 2 ∧
    ∀ m ∈ captureContext msgs, m.content.length ≤ 500 := by
  have hmain : captureContext msgs = (msgs.drop (msgs.length - 2)).filterMap procMsg := by
    rw [captureContext, getRecentMessages]
    simp only [sortAll_eq msgs]
    rw [withIdx_length, withIdx_drop, foldl_pushRecent, List.nil_append, Nat.zero_add,
      withIdx_filterMap]
  refine ⟨hmain, ?_, ?_⟩
  · rw [hmain]
    calc ((msgs.drop (msgs.length - 2)).filterMap procMsg).length
        ≤ (msgs.drop (msgs.length - 2)).length := List.length_filterMap_le _ _
      _ ≤ 2 := by
          rw [List.length_drop]
          omega
  · intro m hm
    rw [hmain] at hm
    obtain ⟨a, _, hpa⟩ := List.mem_filterMap.mp hm
    rw [procMsg] at hpa
    split_ifs at hpa
    cases hpa
    show (List.take 500 (trimChars a.content)).length ≤ 500
    rw [List.length_take]
    omega

/-- Witness for C9 at a concrete three-message page. -/
theorem recentContext_last_two_witness :
    captureContext [⟨Role.user, "first".data⟩, ⟨Role.assistant, "  reply one  ".data⟩,
        ⟨Role.user, "second".data⟩]
      = ([⟨Role.user, "first".data⟩, ⟨Role.assistant, "  reply one  ".data⟩,
          ⟨Role.user, "second".data⟩].drop 1).filterMap procMsg :=
  (recentContext_last_two _).1

/-- `SYNC_COOLDOWN_MS` from `src/background.ts`. -/
def SYNC_COOLDOWN_MS : Nat := 2000

/-- `CONTEXT_PATTERNS` from `src/background.ts`. -/
def CONTEXT_PATTERNS : List (List Char) :=
  ["<memory>".data, "<user_context>".data, "LETTA MEMORY CONTEXT".data,
   "🧠 Letta".data, "[persona]".data, "[human]".data]

/-- Embeds the background worker's `detectPlatform` (URL-substring matching;
the empty URL is falsy and yields `null`). -/
def detectPlatformBg (url : List Char) : Option Platform :=
  if url.isEmpty then none
  else if includesStr url "chatgpt.com".data || includesStr url "chat.openai.com".data then
    some Platform.chatgpt
  else if includesStr url "claude.ai".data then some Platform.claude
  else if includesStr url "perplexity.ai".data then some Platform.perplexity
  else if includesStr url "gemini.google.com".data then some Platform.gemini
  else none

/-- The settings snapshot `handleSync` reads (`getSettings()`); string
emptiness models JS falsiness of the credential fields. -/
structure BgSettings where
  apiKey : List Char
  agentId : List Char
  captureTargets : List Platform
deriving DecidableEq

/-- The `LETTA_SYNC` payload relevant to validation. -/
structure SyncPayload where
  userMessage : List Char
  url : List Char
deriving DecidableEq

/-- The background worker's module state: `lastSyncTime` and
`lastCapturedHash`. -/
structure BgState where
  lastSyncTime : Nat
  lastCapturedHash : Option (List Char)
deriving DecidableEq

/-- Result of one `handleSync` call: the response's `success` flag, the
updated module state, and whether the remote capture call was issued. -/
structure SyncResult where
  success : Bool
  st : BgState
  remoteCalled : Bool
deriving DecidableEq

/-- Embeds `handleSync` from `src/background.ts`.  `now` is the `Date.now()`
sample taken at entry; `apiOk` tells whether the awaited
`captureMessages` call succeeds (a throw is caught and surfaced as
`success: false`).  Note the source updates `lastSyncTime` only after every
validation check has passed, and `lastCapturedHash` only after a successful
remote call. -/
def handleSyncChecks (st : BgState) (now : Nat) (settings : BgSettings) (payload : SyncPayload)
    (apiOk : Bool) (platform : Platform) : SyncResult :=
  if !(settings.captureTargets.contains platform) then ⟨false, st, false⟩
  else if CONTEXT_PATTERNS.any (fun pat => includesStr payload.userMessage pat) then
    ⟨false, st, false⟩
  else if (trimChars payload.userMessage).isEmpty then ⟨false, st, false⟩
  else if st.lastCapturedHash = some (payload.userMessage.take 200) then
    ⟨false, st, false⟩
  else if apiOk then
    ⟨true, ⟨now, some (payload.userMessage.take 200)⟩, true⟩
  else
    ⟨false, ⟨now, st.lastCapturedHash⟩, true⟩

def handleSync (st : BgState) (now : Nat) (settings : BgSettings) (payload : SyncPayload)
    (apiOk : Bool) : SyncResult :=
  if now - st.lastSyncTime < SYNC_COOLDOWN_MS then ⟨false, st, false⟩
  else if settings.apiKey.isEmpty || settings.agentId.isEmpty then ⟨false, st, false⟩
  else
    (detectPlatformBg payload.url).elim ⟨false, st, false⟩
      (handleSyncChecks st now settings payload apiOk)

/-- Every validation-rejected call (one that issues no remote request)
returns `success = false` with the module state untouched. -/
theorem handleSync_reject_shape (st : BgState) (now : Nat) (settings : BgSettings)
    (payload : SyncPayload) (apiOk : Bool)
    (h : (handleSync st now settings payload apiOk).remoteCalled = false) :
    handleSync st now settings payload apiOk = ⟨false, st, false⟩ := by
  rw [handleSync] at h ⊢
  split_ifs at h ⊢ with h1 h2
  · rfl
  · rfl
  · cases hplat : detectPlatformBg payload.url with
    | none => rfl
    | some platform =>
      rw [hplat] at h
      change (handleSyncChecks st now settings payload apiOk platform).remoteCalled = false at h
      change handleSyncChecks st now settings payload apiOk platform = _
      rw [handleSyncChecks] at h ⊢
      split_ifs at h ⊢ with h3 h4 h5 h6 h7 <;> rfl

/-- A payload whose first 200 characters equal the last captured hash never
reaches the remote call. -/
theorem handleSync_dup_no_remote (st : BgState) (now : Nat) (settings : BgSettings)
    (payload : SyncPayload) (apiOk : Bool)
    (hdup : st.lastCapturedHash = some (payload.userMessage.take 200)) :
    (handleSync st now settings payload apiOk).remoteCalled = false := by
  rw [handleSync]
  split_ifs with h1 h2
  · rfl
  · rfl
  · cases hplat : detectPlatformBg payload.url with
    | none => rfl
    | some platform =>
      change (handleSyncChecks st now settings payload apiOk platform).remoteCalled = false
      rw [handleSyncChecks]
      split_ifs with h3 h4 h5 <;> rfl

/-- Claim C10: the background capture handler rejects — `success = false`,
no remote call, state untouched — any payload arriving less than 2000 ms
after the last payload that passed all validation checks, and any payload
whose first 200 characters equal the last successfully captured message's;
and the rate-limit timestamp advances only when all validation checks pass,
so a rejected payload never extends the cooldown window. -/
theorem handleSync_validation (st : BgState) (now : Nat) (settings : BgSettings)
    (payload : SyncPayload) (apiOk : Bool) :
    (now - st.lastSyncTime < SYNC_COOLDOWN_MS →
      handleSync st now settings payload apiOk = ⟨false, st, false⟩) ∧
    (st.lastCapturedHash = some (payload.userMessage.take 200) →
      handleSync st now settings payload apiOk = ⟨false, st, false⟩) ∧
    ((handleSync st now settings payload apiOk).remoteCalled = false →
      (handleSync st now settings payload apiOk).st.lastSyncTime = st.lastSyncTime) := by
  refine ⟨?_, ?_, ?_⟩
  · intro h
    rw [handleSync, if_pos h]
  · intro hdup
    exact handleSync_reject_shape st now settings payload apiOk
      (handleSync_dup_no_remote st now settings payload apiOk hdup)
  · intro h
    rw [handleSync_reject_shape st now settings payload apiOk h]

/-- Witness for C10: a rate-limited call and a duplicate-hash call at
concrete inputs, with the cooldown-preservation consequence. -/
theorem handleSync_validation_witness :
    handleSync ⟨1000, none⟩ 2500 ⟨"key".data, "agent".data, [Platform.chatgpt]⟩
      ⟨"hi there".data, "https://chatgpt.com/c/1".data⟩ true = ⟨false, ⟨1000, none⟩, false⟩ ∧
    handleSync ⟨0, some "dup".data⟩ 5000 ⟨"key".data, "agent".data, [Platform.chatgpt]⟩
      ⟨"dup".data, "https://chatgpt.com/c/1".data⟩ true = ⟨false, ⟨0, some "dup".data⟩, false⟩ ∧
    (handleSync ⟨0, some "dup".data⟩ 5000 ⟨"key".data, "agent".data, [Platform.chatgpt]⟩
      ⟨"dup".data, "https://chatgpt.com/c/1".data⟩ true).st.lastSyncTime = 0 :=
  ⟨(handleSync_validation ⟨1000, none⟩ 2500 _ _ true).1 (by decide),
   (handleSync_validation ⟨0, some "dup".data⟩ 5000
      ⟨"key".data, "agent".data, [Platform.chatgpt]⟩
      ⟨"dup".data, "https://chatgpt.com/c/1".data⟩ true).2.1 (by decide),
   by
     rw [(handleSync_validation ⟨0, some "dup".data⟩ 5000
        ⟨"key".data, "agent".data, [Platform.chatgpt]⟩
        ⟨"dup".data, "https://chatgpt.com/c/1".data⟩ true).2.1 (by decide)]⟩
